import Mathlib

/-!
Verification of `append_price_history.py`: a shallow embedding of the
time-bucketed idempotent upsert reconciler that syncs open-trade prices
into a history table, together with proofs of its specified properties.

Python strings are modelled as lists of Unicode codepoints (`PyStr`);
`str.strip`/`str.upper` are modelled on the ASCII range, which is the
range the program's tickers and keys live in.
-/

/-- A Python string, as its list of codepoints. -/
abbrev PyStr := List Nat

/-- Converts a Lean string literal to its codepoint list (used to write
concrete Python string values). -/
def pstr (s : String) : PyStr := s.data.map Char.toNat

/-- Model of Python's default whitespace test used by `str.strip`
(ASCII whitespace: space, tab, newline, carriage return, vertical tab,
form feed). -/
def pyIsSpace (c : Nat) : Bool :=
  c == 32 || c == 9 || c == 10 || c == 13 || c == 11 || c == 12

/-- Model of `str.upper` on one codepoint (ASCII case mapping). -/
def pyCharUpper (c : Nat) : Nat :=
  if 97 ≤ c ∧ c ≤ 122 then c - 32 else c

/-- Model of `str.strip()`: drop leading and trailing whitespace. -/
def pyStrip (s : PyStr) : PyStr :=
  ((s.dropWhile pyIsSpace).reverse.dropWhile pyIsSpace).reverse

/-- Model of `str.upper()`. -/
def pyUpper (s : PyStr) : PyStr := s.map pyCharUpper

/-- Ticker normalization used throughout the script: `.strip().upper()`. -/
def pyNorm (s : PyStr) : PyStr := pyUpper (pyStrip s)

theorem pyCharUpper_pyCharUpper (c : Nat) :
    pyCharUpper (pyCharUpper c) = pyCharUpper c := by
  unfold pyCharUpper
  split_ifs with h1 h2 <;> first | rfl | omega

theorem pyIsSpace_pyCharUpper (c : Nat) :
    pyIsSpace (pyCharUpper c) = pyIsSpace c := by
  unfold pyCharUpper
  split_ifs with h
  · have hl : pyIsSpace (c - 32) = false := by
      simp only [pyIsSpace, Bool.or_eq_false_iff, beq_eq_false_iff_ne, ne_eq]
      omega
    have hr : pyIsSpace c = false := by
      simp only [pyIsSpace, Bool.or_eq_false_iff, beq_eq_false_iff_ne, ne_eq]
      omega
    rw [hl, hr]
  · rfl

theorem dropWhile_head_false {p : Nat → Bool} {l : PyStr}
    (h : ∀ x, l.head? = some x → p x = false) :
    l.dropWhile p = l := by
  cases l with
  | nil => rfl
  | cons a as =>
    have := h a rfl
    simp [List.dropWhile_cons, this]

theorem dropWhile_dropWhile (p : Nat → Bool) (l : PyStr) :
    (l.dropWhile p).dropWhile p = l.dropWhile p := by
  apply dropWhile_head_false
  intro x hx
  have h := List.head?_dropWhile_not p l
  rw [hx] at h
  exact h

theorem pyStrip_decomp (l : PyStr) :
    l.dropWhile pyIsSpace =
      pyStrip l ++ ((l.dropWhile pyIsSpace).reverse.takeWhile pyIsSpace).reverse := by
  unfold pyStrip
  have h := List.takeWhile_append_dropWhile (p := pyIsSpace)
    (l := (l.dropWhile pyIsSpace).reverse)
  calc l.dropWhile pyIsSpace
      = (l.dropWhile pyIsSpace).reverse.reverse := (List.reverse_reverse _).symm
    _ = ((l.dropWhile pyIsSpace).reverse.takeWhile pyIsSpace ++
          (l.dropWhile pyIsSpace).reverse.dropWhile pyIsSpace).reverse := by rw [h]
    _ = _ := by rw [List.reverse_append]

theorem dropWhile_pyStrip (l : PyStr) :
    (pyStrip l).dropWhile pyIsSpace = pyStrip l := by
  apply dropWhile_head_false
  intro x hx
  have hd := List.head?_dropWhile_not pyIsSpace l
  have hdec := pyStrip_decomp l
  cases hs : pyStrip l with
  | nil => rw [hs] at hx; simp at hx
  | cons b bs =>
    rw [hs] at hx
    simp only [List.head?_cons, Option.some.injEq] at hx
    subst hx
    rw [hdec, hs] at hd
    simpa using hd

theorem reverse_pyStrip (l : PyStr) :
    (pyStrip l).reverse = (l.dropWhile pyIsSpace).reverse.dropWhile pyIsSpace := by
  unfold pyStrip
  rw [List.reverse_reverse]

theorem pyStrip_idem (l : PyStr) : pyStrip (pyStrip l) = pyStrip l := by
  show (((pyStrip l).dropWhile pyIsSpace).reverse.dropWhile pyIsSpace).reverse = pyStrip l
  rw [dropWhile_pyStrip, reverse_pyStrip, dropWhile_dropWhile,
    ← reverse_pyStrip, List.reverse_reverse]

theorem pyIsSpace_comp_pyCharUpper : pyIsSpace ∘ pyCharUpper = pyIsSpace := by
  funext c
  exact pyIsSpace_pyCharUpper c

theorem pyStrip_pyUpper (l : PyStr) : pyStrip (pyUpper l) = pyUpper (pyStrip l) := by
  unfold pyStrip pyUpper
  rw [List.dropWhile_map, pyIsSpace_comp_pyCharUpper, ← List.map_reverse,
    List.dropWhile_map, pyIsSpace_comp_pyCharUpper, ← List.map_reverse]

theorem pyUpper_idem (l : PyStr) : pyUpper (pyUpper l) = pyUpper l := by
  unfold pyUpper
  rw [List.map_map]
  congr 1
  funext c
  exact pyCharUpper_pyCharUpper c

theorem pyNorm_idem (l : PyStr) : pyNorm (pyNorm l) = pyNorm l := by
  unfold pyNorm
  rw [pyStrip_pyUpper, pyUpper_idem, pyStrip_idem]

/-! ## Data model

A wall-clock datetime (Python `datetime`), Notion property values, and
Notion pages. Page/record identifiers are modelled as natural numbers;
Notion guarantees their uniqueness, which appears below as the
`wfState` hypothesis. -/

/-- Model of Python `datetime` (timezone fixed by configuration, so not
carried). A real `datetime` always satisfies `minute < 60` etc. -/
structure DT where
  year : Nat
  month : Nat
  day : Nat
  hour : Nat
  minute : Nat
  second : Nat
  microsecond : Nat
deriving DecidableEq

/-- Python exceptions that the script can raise. -/
inductive PyError where
  /-- Raised when `minutes = 0` in the integer division of `floor_to_bucket`. -/
  | zeroDivisionError
  /-- Raised by `datetime.replace` when it rejects an out-of-range minute. -/
  | valueError
  /-- The `RuntimeError` raised by `notion_post` / `notion_patch` on a
  non-2xx HTTP response (carries the status code). -/
  | runtimeError (status : Nat)
deriving DecidableEq

deriving instance DecidableEq for Except

/-- Model of `floor_to_bucket(dt, minutes)`:
`m = (dt.minute // minutes) * minutes; return dt.replace(minute=m, second=0, microsecond=0)`.
Python `//` raises `ZeroDivisionError` when `minutes = 0`, and
`datetime.replace` raises `ValueError` if the computed minute is not
below 60 (it never is, see `floor_to_bucket_total_and_zero_div`). -/
def floor_to_bucket (dt : DT) (minutes : Nat) : Except PyError DT :=
  if minutes = 0 then .error .zeroDivisionError
  else
    let m := dt.minute / minutes * minutes
    if m < 60 then
      .ok { dt with minute := m, second := 0, microsecond := 0 }
    else .error .valueError

/-- Two-digit zero-padded decimal field of `strftime`. -/
def pad2 (n : Nat) : PyStr :=
  if n < 10 then pstr "0" ++ pstr (toString n) else pstr (toString n)

/-- Four-digit zero-padded `%Y` field of `strftime`. -/
def pad4 (n : Nat) : PyStr :=
  if n < 10 then pstr "000" ++ pstr (toString n)
  else if n < 100 then pstr "00" ++ pstr (toString n)
  else if n < 1000 then pstr "0" ++ pstr (toString n)
  else pstr (toString n)

/-- Model of `bucket_time.strftime("%Y-%m-%d %H:%M")`: the bucket key stored in
the `HourKey` column. -/
def strftimeKey (dt : DT) : PyStr :=
  pad4 dt.year ++ pstr "-" ++ pad2 dt.month ++ pstr "-" ++ pad2 dt.day ++
    pstr " " ++ pad2 dt.hour ++ pstr ":" ++ pad2 dt.minute

/-- A Notion property value, tagged by its type as in the API JSON.
`title`/`richText` carry the `plain_text` of each fragment; `number`
carries the (possibly null) numeric value. -/
inductive NProp where
  | title (texts : List PyStr)
  | richText (texts : List PyStr)
  | number (val : Option Rat)
  | relation (ids : List Nat)
  | date (startTime : DT)
  | select (name : PyStr)
deriving DecidableEq

/-- A Notion page: its id plus its `properties` object
(property name to value). -/
structure Page where
  id : Nat
  properties : List (String × NProp)
deriving DecidableEq

/-- Property-name constants of the script (matching the DB columns). -/
def TRADING_TICKER_PROP : String := "Ticker"

def TRADING_CLOSE_PROP : String := "Close"

def TRADING_STATUS_PROP : String := "Status"

def HIST_TICKER_PROP : String := "Ticker"

def HIST_STOCK_REL_PROP : String := "Stock"

def HIST_TIME_PROP : String := "Time"

def HIST_KEY_PROP : String := "HourKey"

def HIST_PRICE_PROP : String := "Price"

def HIST_POINT_TYPE_PROP : String := "Point Type"

/-- The `POINT_TYPE_VALUE` environment default. -/
def POINT_TYPE_VALUE : PyStr := pstr "10min"

/-- The `BUCKET_MINUTES` environment default. -/
def BUCKET_MINUTES : Nat := 10

/-- Dict-style lookup in a page's `properties` object. -/
def lookupProp (ps : List (String × NProp)) (k : String) : Option NProp :=
  (ps.find? (fun kv => kv.1 == k)).map (·.2)

/-- Model of `get_title(page, prop_name)`: `""` when the property is missing or
not of `title` type, else the concatenated `plain_text` fragments. -/
def get_title (page : Page) (propName : String) : PyStr :=
  match lookupProp page.properties propName with
  | some (NProp.title ts) => ts.flatten
  | _ => []

/-- Model of `get_rich_text(page, prop_name)`: `""` when missing or not
`rich_text`, else the concatenated `plain_text` fragments. -/
def get_rich_text (page : Page) (propName : String) : PyStr :=
  match lookupProp page.properties propName with
  | some (NProp.richText ts) => ts.flatten
  | _ => []

/-- Model of `get_number(page, prop_name)`: `None` when missing or not of
`number` type, else the stored (possibly null) number. -/
def get_number (page : Page) (propName : String) : Option Rat :=
  match lookupProp page.properties propName with
  | some (NProp.number n) => n
  | _ => none

/-! ## External query plumbing -/

/-- One page of a Notion database query response: the `results` array,
the `has_more` flag, and the opaque continuation cursor. -/
structure QueryResp (α : Type) where
  results : List α
  hasMore : Bool
  nextCursor : Option Nat
deriving DecidableEq

/-- Model of `db_query_all(db_id, payload)`: loop issuing the query, extending
`results` with each page's `results`, breaking when `has_more` is
falsy, else continuing from `next_cursor`. The external server's
successive page responses are modelled as the given list, consumed in
order. -/
def db_query_all {α : Type} : List (QueryResp α) → List α
  | [] => []
  | r :: rs => r.results ++ (if r.hasMore then db_query_all rs else [])

/-- The two schema variants of the `Status` filter that
`query_open_trades` can send (`status` type first, `select` on
fallback). -/
inductive StatusFilter where
  | statusType
  | selectType
deriving DecidableEq

/-- Model of `query_open_trades()`: try the `status`-type filter; on any
exception fall back (once) to the `select`-type filter, whose outcome —
success or exception — is final. `q` gives the outcome of
`db_query_all` on the trading DB for each filter variant; the returned
list records which variants were attempted, in order. -/
def query_open_trades (q : StatusFilter → Except PyError (List Page)) :
    Except PyError (List Page) × List StatusFilter :=
  match q .statusType with
  | .ok r => (.ok r, [.statusType])
  | .error _ => (q .selectType, [.statusType, .selectType])

/-! ## The reconciler state -/

/-- The history database plus the server's id generator for pages it
creates. -/
structure RunState where
  store : List Page
  nextId : Nat
deriving DecidableEq

/-- One write call issued against the Notion API by the reconciler. -/
inductive WriteCall where
  /-- A `create_page(HISTORY_DB_ID, props)` call. -/
  | create (props : List (String × NProp))
  /-- An `update_page(page_id, props)` call. -/
  | update (pageId : Nat) (props : List (String × NProp))
deriving DecidableEq

/-- The `created` / `updated` / `skipped` counters of `main`. -/
structure Counts where
  created : Nat
  updated : Nat
  skipped : Nat
deriving DecidableEq

/-- Dict insertion for `existing_map[t] = hr["id"]`: the new binding
shadows any earlier one (Python dict assignment overwrites). -/
def dictInsert (m : List (PyStr × Nat)) (k : PyStr) (v : Nat) : List (PyStr × Nat) :=
  (k, v) :: m

/-- Dict lookup: the most recent binding of the key, if any. -/
def dictFind (m : List (PyStr × Nat)) (k : PyStr) : Option Nat :=
  (m.find? (fun kv => kv.1 == k)).map (·.2)

/-- One iteration of the `existing_map` construction of `main`: map
the row's normalized `Ticker` title to its page id, skipping empty
tickers; a later binding of the same ticker overwrites an earlier one
(last wins). -/
def emStep (m : List (PyStr × Nat)) (hr : Page) : List (PyStr × Nat) :=
  let t := pyNorm (get_title hr HIST_TICKER_PROP)
  if t.isEmpty then m else dictInsert m t hr.id

/-- The `existing_map` construction of `main` over the pre-read
history rows. -/
def build_existing_map (rows : List Page) : List (PyStr × Nat) :=
  rows.foldl emStep []

/-- The `props` dict literal built for each trade: the target history
row's property set. `float(price)` is the identity on the stored
rational. -/
def mkProps (ticker : PyStr) (stockPageId : Nat) (bucketTime : DT)
    (timeKey : PyStr) (price : Rat) : List (String × NProp) :=
  [(HIST_TICKER_PROP, NProp.title [ticker]),
   (HIST_STOCK_REL_PROP, NProp.relation [stockPageId]),
   (HIST_TIME_PROP, NProp.date bucketTime),
   (HIST_KEY_PROP, NProp.richText [timeKey]),
   (HIST_PRICE_PROP, NProp.number (some price)),
   (HIST_POINT_TYPE_PROP, NProp.select POINT_TYPE_VALUE)]

/-- Setting one property in a page's `properties` object (Notion PATCH
merges property-by-property): replace the binding of the key, or append
one. -/
def setProp : List (String × NProp) → String → NProp → List (String × NProp)
  | [], k, v => [(k, v)]
  | (a, b) :: ps, k, v =>
    if a == k then (k, v) :: ps else (a, b) :: setProp ps k v

/-- Applying a PATCH `properties` payload to a page's properties. -/
def applyProps (ps newProps : List (String × NProp)) : List (String × NProp) :=
  newProps.foldl (fun acc kv => setProp acc kv.1 kv.2) ps

/-- Model of `update_page(page_id, props)` as seen by the store: PATCH the page
with that id. -/
def updatePageStore (store : List Page) (pageId : Nat)
    (props : List (String × NProp)) : List Page :=
  store.map (fun p =>
    if p.id == pageId then { p with properties := applyProps p.properties props } else p)

/-- Model of `create_page(HISTORY_DB_ID, props)` as seen by the store: the
server adds a fresh page holding `props`. -/
def createPageStore (store : List Page) (newId : Nat)
    (props : List (String × NProp)) : List Page :=
  store ++ [{ id := newId, properties := props }]

/-- The state after `update_page(pid, props)`. -/
def postUpdate (st : RunState) (pid : Nat) (props : List (String × NProp)) : RunState :=
  { st with store := updatePageStore st.store pid props }

/-- The state after `create_page(HISTORY_DB_ID, props)`: the server
materializes the page under a fresh id. -/
def postCreate (st : RunState) (props : List (String × NProp)) : RunState :=
  { store := createPageStore st.store st.nextId props, nextId := st.nextId + 1 }

/-- The upsert loop of `main` (step 3): for each trade row, extract the
normalized ticker and the price; skip the row if the ticker is empty or
the price is `None`; otherwise update the existing history row found in
`existing_map`, or create a new one. Returns the final counters, the
write calls issued (in order), and the resulting store state. -/
def reconcile (em : List (PyStr × Nat)) (bucketTime : DT) (timeKey : PyStr) :
    List Page → RunState → Counts × List WriteCall × RunState
  | [], st => (⟨0, 0, 0⟩, [], st)
  | row :: rest, st =>
    let ticker := pyNorm (get_title row TRADING_TICKER_PROP)
    let price := get_number row TRADING_CLOSE_PROP
    if ticker.isEmpty then
      let out := reconcile em bucketTime timeKey rest st
      ({ out.1 with skipped := out.1.skipped + 1 }, out.2)
    else
      match price with
      | none =>
        let out := reconcile em bucketTime timeKey rest st
        ({ out.1 with skipped := out.1.skipped + 1 }, out.2)
      | some p =>
        let props := mkProps ticker row.id bucketTime timeKey p
        match dictFind em ticker with
        | some pid =>
          let out := reconcile em bucketTime timeKey rest (postUpdate st pid props)
          ({ out.1 with updated := out.1.updated + 1 },
            WriteCall.update pid props :: out.2.1, out.2.2)
        | none =>
          let out := reconcile em bucketTime timeKey rest (postCreate st props)
          ({ out.1 with created := out.1.created + 1 },
            WriteCall.create props :: out.2.1, out.2.2)

/-- Steps 2–3 of `main` for a given bucket: pre-read the history rows
whose `HourKey` rich text equals `timeKey` (the Notion server-side
`rich_text equals` filter), build `existing_map` from them, then run
the upsert loop. -/
def run_reconcile (trades : List Page) (bucketTime : DT) (timeKey : PyStr)
    (st : RunState) : Counts × List WriteCall × RunState :=
  let existing_rows := st.store.filter
    (fun hr => get_rich_text hr HIST_KEY_PROP == timeKey)
  reconcile (build_existing_map existing_rows) bucketTime timeKey trades st

/-- Model of `main()`: compute the bucket time and key from the wall clock, pull
the open trades (with the status/select filter fallback), then
reconcile. Any exception before the loop aborts the run with no write
calls issued; `q` gives the trading-DB query outcome per filter
variant. -/
def main_fn (q : StatusFilter → Except PyError (List Page)) (nowLocal : DT)
    (st : RunState) : Except PyError Counts × List WriteCall × RunState :=
  match floor_to_bucket nowLocal BUCKET_MINUTES with
  | .error e => (.error e, [], st)
  | .ok bucket_time =>
    let time_key := strftimeKey bucket_time
    match (query_open_trades q).1 with
    | .error e => (.error e, [], st)
    | .ok trades =>
      let out := run_reconcile trades bucket_time time_key st
      (.ok out.1, out.2)

/-! ## Derived observations used by the claims -/

/-- Whether a history row carries the given bucket key and normalized
ticker (Boolean form). -/
def rowMatchesB (hr : Page) (timeKey t : PyStr) : Bool :=
  (get_rich_text hr HIST_KEY_PROP == timeKey) &&
    (pyNorm (get_title hr HIST_TICKER_PROP) == t)

/-- The number of history rows of a given bucket key carrying a given
normalized ticker. -/
def countTicker (store : List Page) (timeKey t : PyStr) : Nat :=
  (store.filter (fun hr => rowMatchesB hr timeKey t)).length

/-- A trade row the loop does not skip: non-empty normalized ticker and
a present, numeric price. -/
def validTrade (row : Page) : Prop :=
  pyNorm (get_title row TRADING_TICKER_PROP) ≠ [] ∧
    get_number row TRADING_CLOSE_PROP ≠ none

instance (row : Page) : Decidable (validTrade row) := by
  unfold validTrade
  infer_instance

/-- Store well-formedness guaranteed by Notion: page ids are unique,
and ids the server will assign to new pages are fresh. -/
def wfState (st : RunState) : Prop :=
  (st.store.map Page.id).Nodup ∧ ∀ p ∈ st.store, p.id < st.nextId

instance (st : RunState) : Decidable (wfState st) := by
  unfold wfState
  infer_instance

/-! ## Lemmas about dict lookup and the existing map -/

theorem dictFind_cons (k : PyStr) (v : Nat) (m : List (PyStr × Nat)) (t : PyStr) :
    dictFind ((k, v) :: m) t = if k = t then some v else dictFind m t := by
  by_cases h : k = t
  · subst h
    simp [dictFind]
  · have hb : ((k, v).1 == t) = false := by simpa using h
    simp [dictFind, List.find?_cons_of_neg, hb, h]

theorem dictFind_emStep_isSome {acc : List (PyStr × Nat)} {hr : Page} {t : PyStr}
    (h : (dictFind acc t).isSome) : (dictFind (emStep acc hr) t).isSome := by
  simp only [emStep]
  split
  · exact h
  · rw [dictInsert, dictFind_cons]
    split
    · simp
    · exact h

theorem dictFind_foldl_isSome :
    ∀ (rows : List Page) (acc : List (PyStr × Nat)) (t : PyStr),
      (dictFind acc t).isSome → (dictFind (rows.foldl emStep acc) t).isSome := by
  intro rows
  induction rows with
  | nil => intro acc t h; exact h
  | cons hr rows ih =>
    intro acc t h
    exact ih _ _ (dictFind_emStep_isSome h)

theorem build_map_isSome_of_mem :
    ∀ (rows : List Page) (acc : List (PyStr × Nat)) (t : PyStr), t ≠ [] →
      (∃ hr ∈ rows, pyNorm (get_title hr HIST_TICKER_PROP) = t) →
      (dictFind (rows.foldl emStep acc) t).isSome := by
  intro rows
  induction rows with
  | nil =>
    intro acc t _ h
    simp at h
  | cons hr rows ih =>
    intro acc t ht h
    obtain ⟨w, hw, hwt⟩ := h
    rcases List.mem_cons.mp hw with rfl | hw'
    · rw [List.foldl_cons]
      apply dictFind_foldl_isSome
      simp only [emStep]
      rw [hwt]
      have he : t.isEmpty = false := by simpa using ht
      rw [he]
      simp only [Bool.false_eq_true, if_false, dictInsert, dictFind_cons, if_pos rfl]
      simp
    · exact ih _ _ ht ⟨w, hw', hwt⟩

theorem build_map_find_mem :
    ∀ (rows : List Page) (acc : List (PyStr × Nat)) (t : PyStr) (p : Nat),
      dictFind (rows.foldl emStep acc) t = some p →
      (∃ hr ∈ rows, pyNorm (get_title hr HIST_TICKER_PROP) = t ∧ hr.id = p) ∨
        dictFind acc t = some p := by
  intro rows
  induction rows with
  | nil => intro acc t p h; exact .inr h
  | cons hr rows ih =>
    intro acc t p h
    rcases ih _ _ _ h with ⟨w, hw, h1, h2⟩ | h'
    · exact .inl ⟨w, List.mem_cons_of_mem _ hw, h1, h2⟩
    · simp only [emStep] at h'
      split at h'
      · exact .inr h'
      · rw [dictInsert, dictFind_cons] at h'
        split at h'
        · rename_i hkt
          cases h'
          exact .inl ⟨hr, List.mem_cons_self _ _, hkt, rfl⟩
        · exact .inr h'

theorem build_map_none_of_not_mem (rows : List Page) (t : PyStr) (ht : t ≠ [])
    (h : dictFind (build_existing_map rows) t = none) :
    ¬ ∃ hr ∈ rows, pyNorm (get_title hr HIST_TICKER_PROP) = t := by
  intro hmem
  have := build_map_isSome_of_mem rows [] t ht hmem
  rw [build_existing_map] at h
  rw [h] at this
  simp at this

theorem build_map_inj (rows : List Page) (hnd : (rows.map Page.id).Nodup) :
    ∀ t1 t2 p, dictFind (build_existing_map rows) t1 = some p →
      dictFind (build_existing_map rows) t2 = some p → t1 = t2 := by
  intro t1 t2 p h1 h2
  rcases build_map_find_mem rows [] t1 p h1 with ⟨w1, hw1, hwt1, hwp1⟩ | h
  · rcases build_map_find_mem rows [] t2 p h2 with ⟨w2, hw2, hwt2, hwp2⟩ | h
    · have hids : Page.id w1 = Page.id w2 := by rw [hwp1, hwp2]
      have : w1 = w2 := List.inj_on_of_nodup_map hnd hw1 hw2 hids
      rw [← hwt1, ← hwt2, this]
    · simp [dictFind] at h
  · simp [dictFind] at h

/-! ## Lemmas about written property sets -/

theorem lookupProp_cons_self (a : String) (b : NProp) (ps : List (String × NProp))
    (k' : String) (h : a = k') : lookupProp ((a, b) :: ps) k' = some b := by
  subst h
  simp [lookupProp]

theorem lookupProp_cons_ne (a : String) (b : NProp) (ps : List (String × NProp))
    (k' : String) (h : a ≠ k') : lookupProp ((a, b) :: ps) k' = lookupProp ps k' := by
  have hb : ((a, b).1 == k') = false := by simpa using h
  simp [lookupProp, List.find?_cons, hb]

theorem lookupProp_setProp :
    ∀ (ps : List (String × NProp)) (k : String) (v : NProp) (k' : String),
      lookupProp (setProp ps k v) k' = if k' = k then some v else lookupProp ps k' := by
  intro ps
  induction ps with
  | nil =>
    intro k v k'
    by_cases h : k' = k
    · rw [show setProp [] k v = [(k, v)] from rfl, lookupProp_cons_self k v [] k' h.symm,
        if_pos h]
    · rw [show setProp [] k v = [(k, v)] from rfl,
        lookupProp_cons_ne k v [] k' (fun he => h he.symm), if_neg h]
  | cons kv ps ih =>
    intro k v k'
    obtain ⟨a, b⟩ := kv
    by_cases hak : a = k
    · subst hak
      rw [show setProp ((a, b) :: ps) a v = (a, v) :: ps from by simp [setProp]]
      by_cases h : k' = a
      · rw [lookupProp_cons_self a v ps k' h.symm, if_pos h]
      · rw [lookupProp_cons_ne a v ps k' (fun he => h he.symm), if_neg h,
          lookupProp_cons_ne a b ps k' (fun he => h he.symm)]
    · have hb : (a == k) = false := by simpa using hak
      rw [show setProp ((a, b) :: ps) k v = (a, b) :: setProp ps k v from by
        simp [setProp, hb]]
      by_cases h : k' = a
      · rw [lookupProp_cons_self a b (setProp ps k v) k' h.symm,
          lookupProp_cons_self a b ps k' h.symm, if_neg (by rw [h]; exact hak)]
      · rw [lookupProp_cons_ne a b (setProp ps k v) k' (fun he => h he.symm),
          lookupProp_cons_ne a b ps k' (fun he => h he.symm), ih]

theorem applyProps_mkProps_eq (ps : List (String × NProp)) (ticker : PyStr)
    (sid : Nat) (bt : DT) (key : PyStr) (p : Rat) :
    applyProps ps (mkProps ticker sid bt key p) =
      setProp (setProp (setProp (setProp (setProp (setProp ps
        HIST_TICKER_PROP (NProp.title [ticker]))
        HIST_STOCK_REL_PROP (NProp.relation [sid]))
        HIST_TIME_PROP (NProp.date bt))
        HIST_KEY_PROP (NProp.richText [key]))
        HIST_PRICE_PROP (NProp.number (some p)))
        HIST_POINT_TYPE_PROP (NProp.select POINT_TYPE_VALUE) := rfl

theorem lookupProp_update_ticker (ps : List (String × NProp)) (ticker : PyStr)
    (sid : Nat) (bt : DT) (key : PyStr) (p : Rat) :
    lookupProp (applyProps ps (mkProps ticker sid bt key p)) HIST_TICKER_PROP =
      some (NProp.title [ticker]) := by
  rw [applyProps_mkProps_eq]
  rw [lookupProp_setProp, if_neg (by decide), lookupProp_setProp, if_neg (by decide),
    lookupProp_setProp, if_neg (by decide), lookupProp_setProp, if_neg (by decide),
    lookupProp_setProp, if_neg (by decide), lookupProp_setProp, if_pos rfl]

theorem lookupProp_update_key (ps : List (String × NProp)) (ticker : PyStr)
    (sid : Nat) (bt : DT) (key : PyStr) (p : Rat) :
    lookupProp (applyProps ps (mkProps ticker sid bt key p)) HIST_KEY_PROP =
      some (NProp.richText [key]) := by
  rw [applyProps_mkProps_eq]
  rw [lookupProp_setProp, if_neg (by decide), lookupProp_setProp, if_neg (by decide),
    lookupProp_setProp, if_pos rfl]

theorem get_title_update (pg : Page) (ticker : PyStr) (sid : Nat) (bt : DT)
    (key : PyStr) (p : Rat) :
    get_title { pg with properties := applyProps pg.properties (mkProps ticker sid bt key p) }
      HIST_TICKER_PROP = ticker := by
  unfold get_title
  rw [show ({ pg with properties := applyProps pg.properties (mkProps ticker sid bt key p) } : Page).properties
      = applyProps pg.properties (mkProps ticker sid bt key p) from rfl]
  rw [lookupProp_update_ticker]
  simp

theorem get_rich_text_update (pg : Page) (ticker : PyStr) (sid : Nat) (bt : DT)
    (key : PyStr) (p : Rat) :
    get_rich_text { pg with properties := applyProps pg.properties (mkProps ticker sid bt key p) }
      HIST_KEY_PROP = key := by
  unfold get_rich_text
  rw [show ({ pg with properties := applyProps pg.properties (mkProps ticker sid bt key p) } : Page).properties
      = applyProps pg.properties (mkProps ticker sid bt key p) from rfl]
  rw [lookupProp_update_key]
  simp

theorem get_title_create (i : Nat) (ticker : PyStr) (sid : Nat) (bt : DT)
    (key : PyStr) (p : Rat) :
    get_title { id := i, properties := mkProps ticker sid bt key p }
      HIST_TICKER_PROP = ticker := by
  unfold get_title lookupProp mkProps
  simp

theorem get_rich_text_create (i : Nat) (ticker : PyStr) (sid : Nat) (bt : DT)
    (key : PyStr) (p : Rat) :
    get_rich_text { id := i, properties := mkProps ticker sid bt key p }
      HIST_KEY_PROP = key := by
  unfold get_rich_text lookupProp mkProps
  simp [List.find?_cons, HIST_TICKER_PROP, HIST_KEY_PROP, HIST_STOCK_REL_PROP,
    HIST_TIME_PROP]

/-! ## Lemmas about store updates -/

theorem updatePageStore_map_id (store : List Page) (pid : Nat)
    (props : List (String × NProp)) :
    (updatePageStore store pid props).map Page.id = store.map Page.id := by
  unfold updatePageStore
  rw [List.map_map]
  apply List.map_congr_left
  intro q _
  simp only [Function.comp_apply]
  split <;> rfl

theorem mem_updatePageStore_of_ne {store : List Page} {hr : Page} (pid : Nat)
    (props : List (String × NProp)) (hmem : hr ∈ store) (hne : hr.id ≠ pid) :
    hr ∈ updatePageStore store pid props := by
  unfold updatePageStore
  have hb : (hr.id == pid) = false := by simpa using hne
  have : (fun p : Page =>
      if p.id == pid then { p with properties := applyProps p.properties props } else p) hr = hr := by
    simp [hb]
  rw [← this]
  exact List.mem_map_of_mem _ hmem

theorem mem_updatePageStore_self {store : List Page} {hr : Page} (pid : Nat)
    (props : List (String × NProp)) (hmem : hr ∈ store) (heq : hr.id = pid) :
    { hr with properties := applyProps hr.properties props } ∈
      updatePageStore store pid props := by
  unfold updatePageStore
  have hb : (hr.id == pid) = true := by simpa using heq
  have : (fun p : Page =>
      if p.id == pid then { p with properties := applyProps p.properties props } else p) hr =
      { hr with properties := applyProps hr.properties props } := by
    simp [hb]
  rw [← this]
  exact List.mem_map_of_mem _ hmem

/-- A history row carrying the given bucket key and normalized ticker. -/
def rowMatches (hr : Page) (key t : PyStr) : Prop :=
  get_rich_text hr HIST_KEY_PROP = key ∧ pyNorm (get_title hr HIST_TICKER_PROP) = t

instance (hr : Page) (key t : PyStr) : Decidable (rowMatches hr key t) := by
  unfold rowMatches
  infer_instance

/-- The store holds a matching row with the given page id. -/
def hasRowId (store : List Page) (pid : Nat) (key t : PyStr) : Prop :=
  ∃ hr ∈ store, hr.id = pid ∧ rowMatches hr key t

/-- The store holds a matching row. -/
def hasRow (store : List Page) (key t : PyStr) : Prop :=
  ∃ hr ∈ store, rowMatches hr key t

theorem rowMatches_update (pg : Page) (t0 : PyStr) (sid : Nat) (bt : DT)
    (key : PyStr) (p : Rat) (hnorm : pyNorm t0 = t0) :
    rowMatches { pg with properties := applyProps pg.properties (mkProps t0 sid bt key p) }
      key t0 := by
  constructor
  · exact get_rich_text_update pg t0 sid bt key p
  · rw [get_title_update pg t0 sid bt key p]
    exact hnorm

theorem rowMatches_create (i : Nat) (t0 : PyStr) (sid : Nat) (bt : DT)
    (key : PyStr) (p : Rat) (hnorm : pyNorm t0 = t0) :
    rowMatches { id := i, properties := mkProps t0 sid bt key p } key t0 := by
  constructor
  · exact get_rich_text_create i t0 sid bt key p
  · rw [get_title_create i t0 sid bt key p]
    exact hnorm

/-! ## Step lemmas for the reconcile loop -/

theorem reconcile_nil (em : List (PyStr × Nat)) (bt : DT) (key : PyStr)
    (st : RunState) : reconcile em bt key [] st = (⟨0, 0, 0⟩, [], st) := rfl

theorem reconcile_cons_skip (em : List (PyStr × Nat)) (bt : DT) (key : PyStr)
    (row : Page) (rest : List Page) (st : RunState)
    (h : pyNorm (get_title row TRADING_TICKER_PROP) = [] ∨
      get_number row TRADING_CLOSE_PROP = none) :
    reconcile em bt key (row :: rest) st =
      ({ (reconcile em bt key rest st).1 with
          skipped := (reconcile em bt key rest st).1.skipped + 1 },
        (reconcile em bt key rest st).2) := by
  rcases h with h | h
  · have he : (pyNorm (get_title row TRADING_TICKER_PROP)).isEmpty = true := by
      simp [h]
    simp only [reconcile, he, if_true]
  · by_cases he : (pyNorm (get_title row TRADING_TICKER_PROP)).isEmpty
    · simp only [reconcile, he, if_true]
    · simp only [reconcile, he, Bool.false_eq_true, if_false, h]


theorem reconcile_cons_update (em : List (PyStr × Nat)) (bt : DT) (key : PyStr)
    (row : Page) (rest : List Page) (st : RunState) (pid : Nat) (p : Rat)
    (ht : pyNorm (get_title row TRADING_TICKER_PROP) ≠ [])
    (hp : get_number row TRADING_CLOSE_PROP = some p)
    (hf : dictFind em (pyNorm (get_title row TRADING_TICKER_PROP)) = some pid) :
    reconcile em bt key (row :: rest) st =
      ({ (reconcile em bt key rest (postUpdate st pid
            (mkProps (pyNorm (get_title row TRADING_TICKER_PROP)) row.id bt key p))).1 with
          updated := (reconcile em bt key rest (postUpdate st pid
            (mkProps (pyNorm (get_title row TRADING_TICKER_PROP)) row.id bt key p))).1.updated + 1 },
        WriteCall.update pid
            (mkProps (pyNorm (get_title row TRADING_TICKER_PROP)) row.id bt key p) ::
          (reconcile em bt key rest (postUpdate st pid
            (mkProps (pyNorm (get_title row TRADING_TICKER_PROP)) row.id bt key p))).2.1,
        (reconcile em bt key rest (postUpdate st pid
          (mkProps (pyNorm (get_title row TRADING_TICKER_PROP)) row.id bt key p))).2.2) := by
  have he : (pyNorm (get_title row TRADING_TICKER_PROP)).isEmpty = false := by
    simpa using ht
  simp only [reconcile, he, Bool.false_eq_true, if_false, hp, hf]

theorem reconcile_cons_create (em : List (PyStr × Nat)) (bt : DT) (key : PyStr)
    (row : Page) (rest : List Page) (st : RunState) (p : Rat)
    (ht : pyNorm (get_title row TRADING_TICKER_PROP) ≠ [])
    (hp : get_number row TRADING_CLOSE_PROP = some p)
    (hf : dictFind em (pyNorm (get_title row TRADING_TICKER_PROP)) = none) :
    reconcile em bt key (row :: rest) st =
      ({ (reconcile em bt key rest (postCreate st
            (mkProps (pyNorm (get_title row TRADING_TICKER_PROP)) row.id bt key p))).1 with
          created := (reconcile em bt key rest (postCreate st
            (mkProps (pyNorm (get_title row TRADING_TICKER_PROP)) row.id bt key p))).1.created + 1 },
        WriteCall.create
            (mkProps (pyNorm (get_title row TRADING_TICKER_PROP)) row.id bt key p) ::
          (reconcile em bt key rest (postCreate st
            (mkProps (pyNorm (get_title row TRADING_TICKER_PROP)) row.id bt key p))).2.1,
        (reconcile em bt key rest (postCreate st
          (mkProps (pyNorm (get_title row TRADING_TICKER_PROP)) row.id bt key p))).2.2) := by
  have he : (pyNorm (get_title row TRADING_TICKER_PROP)).isEmpty = false := by
    simpa using ht
  simp only [reconcile, he, Bool.false_eq_true, if_false, hp, hf]

theorem createPageStore_map_id (store : List Page) (i : Nat)
    (props : List (String × NProp)) :
    (createPageStore store i props).map Page.id = store.map Page.id ++ [i] := by
  simp [createPageStore]

theorem hasRowId_hasRow {store : List Page} {pid : Nat} {key t : PyStr}
    (h : hasRowId store pid key t) : hasRow store key t := by
  obtain ⟨hr, hmem, _, hm⟩ := h
  exact ⟨hr, hmem, hm⟩

theorem mem_createPageStore_self (store : List Page) (i : Nat)
    (props : List (String × NProp)) :
    ({ id := i, properties := props } : Page) ∈ createPageStore store i props := by
  unfold createPageStore
  exact List.mem_append_right _ (List.mem_singleton_self _)

theorem reconcile_preserves_row :
    ∀ (rest : List Page) (em : List (PyStr × Nat)) (bt : DT) (key : PyStr)
      (st : RunState) (pid : Nat) (t0 : PyStr),
      pyNorm t0 = t0 →
      (∀ t', dictFind em t' = some pid → t' = t0) →
      hasRowId st.store pid key t0 →
      hasRowId (reconcile em bt key rest st).2.2.store pid key t0 := by
  intro rest
  induction rest with
  | nil =>
    intro em bt key st pid t0 _ _ hrow
    rw [reconcile_nil]
    exact hrow
  | cons row rest ih =>
    intro em bt key st pid t0 hnorm hpid hrow
    by_cases hv1 : pyNorm (get_title row TRADING_TICKER_PROP) = []
    · rw [reconcile_cons_skip em bt key row rest st (.inl hv1)]
      exact ih em bt key st pid t0 hnorm hpid hrow
    · cases hp : get_number row TRADING_CLOSE_PROP with
      | none =>
        rw [reconcile_cons_skip em bt key row rest st (.inr hp)]
        exact ih em bt key st pid t0 hnorm hpid hrow
      | some p =>
        cases hf : dictFind em (pyNorm (get_title row TRADING_TICKER_PROP)) with
        | some pid' =>
          rw [reconcile_cons_update em bt key row rest st pid' p hv1 hp hf]
          apply ih
          · exact hnorm
          · exact hpid
          · obtain ⟨hr, hmem, hid, hm⟩ := hrow
            by_cases hpp : pid' = pid
            · subst hpp
              have ht0 : pyNorm (get_title row TRADING_TICKER_PROP) = t0 := hpid _ hf
              have hw := mem_updatePageStore_self pid'
                (mkProps (pyNorm (get_title row TRADING_TICKER_PROP)) row.id bt key p)
                hmem hid
              refine ⟨_, hw, hid, ?_⟩
              rw [ht0]
              exact rowMatches_update hr t0 row.id bt key p hnorm
            · exact ⟨hr, mem_updatePageStore_of_ne pid' _ hmem
                (by rw [hid]; exact fun he => hpp he.symm), hid, hm⟩
        | none =>
          rw [reconcile_cons_create em bt key row rest st p hv1 hp hf]
          apply ih
          · exact hnorm
          · exact hpid
          · obtain ⟨hr, hmem, hid, hm⟩ := hrow
            exact ⟨hr, List.mem_append_left _ hmem, hid, hm⟩

theorem reconcile_writes_row :
    ∀ (trades : List Page) (em : List (PyStr × Nat)) (bt : DT) (key : PyStr)
      (st : RunState),
      (∀ t1 t2 q, dictFind em t1 = some q → dictFind em t2 = some q → t1 = t2) →
      (∀ t q, dictFind em t = some q → q < st.nextId) →
      (∀ t q, dictFind em t = some q → q ∈ st.store.map Page.id) →
      ∀ row ∈ trades, validTrade row →
        hasRow (reconcile em bt key trades st).2.2.store key
          (pyNorm (get_title row TRADING_TICKER_PROP)) := by
  intro trades
  induction trades with
  | nil =>
    intro em bt key st _ _ _ row hrow
    simp at hrow
  | cons row0 rest ih =>
    intro em bt key st hinj hbound hpres row hrow hv
    by_cases hv1 : pyNorm (get_title row0 TRADING_TICKER_PROP) = []
    · rw [reconcile_cons_skip em bt key row0 rest st (.inl hv1)]
      rcases List.mem_cons.mp hrow with rfl | hrow'
      · exact absurd hv1 hv.1
      · exact ih em bt key st hinj hbound hpres row hrow' hv
    · cases hp : get_number row0 TRADING_CLOSE_PROP with
      | none =>
        rw [reconcile_cons_skip em bt key row0 rest st (.inr hp)]
        rcases List.mem_cons.mp hrow with rfl | hrow'
        · exact absurd hp hv.2
        · exact ih em bt key st hinj hbound hpres row hrow' hv
      | some p =>
        cases hf : dictFind em (pyNorm (get_title row0 TRADING_TICKER_PROP)) with
        | some pid0 =>
          rw [reconcile_cons_update em bt key row0 rest st pid0 p hv1 hp hf]
          have hbound' : ∀ t q, dictFind em t = some q →
              q < (postUpdate st pid0 (mkProps (pyNorm (get_title row0 TRADING_TICKER_PROP))
                row0.id bt key p)).nextId := hbound
          have hpres' : ∀ t q, dictFind em t = some q →
              q ∈ (postUpdate st pid0 (mkProps (pyNorm (get_title row0 TRADING_TICKER_PROP))
                row0.id bt key p)).store.map Page.id := by
            intro t q hq
            rw [show (postUpdate st pid0 (mkProps (pyNorm (get_title row0 TRADING_TICKER_PROP))
              row0.id bt key p)).store = updatePageStore st.store pid0 _ from rfl,
              updatePageStore_map_id]
            exact hpres t q hq
          rcases List.mem_cons.mp hrow with rfl | hrow'
          · have hid0 : pid0 ∈ st.store.map Page.id := hpres _ _ hf
            obtain ⟨hr, hmem, hid⟩ := List.mem_map.mp hid0
            apply hasRowId_hasRow
            apply reconcile_preserves_row rest em bt key _ pid0
              (pyNorm (get_title row TRADING_TICKER_PROP))
              (pyNorm_idem _) (fun t' ht' => hinj t' _ pid0 ht' hf)
            have hw := mem_updatePageStore_self pid0
              (mkProps (pyNorm (get_title row TRADING_TICKER_PROP)) row.id bt key p)
              hmem hid
            exact ⟨_, hw, hid, rowMatches_update hr _ row.id bt key p (pyNorm_idem _)⟩
          · exact ih em bt key _ hinj hbound' hpres' row hrow' hv
        | none =>
          rw [reconcile_cons_create em bt key row0 rest st p hv1 hp hf]
          have hbound' : ∀ t q, dictFind em t = some q →
              q < (postCreate st (mkProps (pyNorm (get_title row0 TRADING_TICKER_PROP))
                row0.id bt key p)).nextId := by
            intro t q hq
            exact Nat.lt_succ_of_lt (hbound t q hq)
          have hpres' : ∀ t q, dictFind em t = some q →
              q ∈ (postCreate st (mkProps (pyNorm (get_title row0 TRADING_TICKER_PROP))
                row0.id bt key p)).store.map Page.id := by
            intro t q hq
            rw [show (postCreate st (mkProps (pyNorm (get_title row0 TRADING_TICKER_PROP))
              row0.id bt key p)).store = createPageStore st.store st.nextId _ from rfl,
              createPageStore_map_id]
            exact List.mem_append_left _ (hpres t q hq)
          rcases List.mem_cons.mp hrow with rfl | hrow'
          · apply hasRowId_hasRow
            apply reconcile_preserves_row rest em bt key _ st.nextId
              (pyNorm (get_title row TRADING_TICKER_PROP))
              (pyNorm_idem _)
              (fun t' ht' => absurd (hbound t' _ ht') (Nat.lt_irrefl _))
            exact ⟨_, mem_createPageStore_self st.store st.nextId _, rfl,
              rowMatches_create st.nextId _ row.id bt key p (pyNorm_idem _)⟩
          · exact ih em bt key _ hinj hbound' hpres' row hrow' hv

theorem reconcile_all_update :
    ∀ (trades : List Page) (em : List (PyStr × Nat)) (bt : DT) (key : PyStr)
      (st : RunState),
      (∀ row ∈ trades, validTrade row ∧
        (dictFind em (pyNorm (get_title row TRADING_TICKER_PROP))).isSome) →
      (reconcile em bt key trades st).1 = ⟨0, trades.length, 0⟩ := by
  intro trades
  induction trades with
  | nil =>
    intro em bt key st _
    rw [reconcile_nil]
    rfl
  | cons row0 rest ih =>
    intro em bt key st h
    obtain ⟨hv, hs⟩ := h row0 (List.mem_cons_self _ _)
    have hpnum : ∃ p, get_number row0 TRADING_CLOSE_PROP = some p := by
      cases hq : get_number row0 TRADING_CLOSE_PROP with
      | none => exact absurd hq hv.2
      | some q => exact ⟨q, rfl⟩
    obtain ⟨p, hp⟩ := hpnum
    obtain ⟨pid, hpid⟩ := Option.isSome_iff_exists.mp hs
    rw [reconcile_cons_update em bt key row0 rest st pid p hv.1 hp hpid]
    have := ih em bt key
      (postUpdate st pid (mkProps (pyNorm (get_title row0 TRADING_TICKER_PROP)) row0.id bt key p))
      (fun row hrow => h row (List.mem_cons_of_mem _ hrow))
    rw [this]
    simp

/-- Claim C1: running reconcile a second time with the identical trade
list (each trade with a non-empty normalized ticker and a present
price) and the same bucket key, against the store state left by the
first run, yields created = 0 and updated = N (N the number of
trades): every ticker written by the first run is found by the second
run's pre-read, so no duplicate history row is created. -/
theorem reconcile_rerun_idempotent
    (trades : List Page) (bt1 bt2 : DT) (key : PyStr) (st0 : RunState)
    (hwf : wfState st0)
    (hvalid : ∀ row ∈ trades, validTrade row) :
    (run_reconcile trades bt2 key (run_reconcile trades bt1 key st0).2.2).1 =
      ⟨0, trades.length, 0⟩ := by
  have hfilter_nodup :
      ((st0.store.filter (fun hr => get_rich_text hr HIST_KEY_PROP == key)).map
        Page.id).Nodup :=
    List.Nodup.sublist (List.Sublist.map Page.id (List.filter_sublist _)) hwf.1
  have hinj := build_map_inj _ hfilter_nodup
  have hbound : ∀ t q,
      dictFind (build_existing_map (st0.store.filter
        (fun hr => get_rich_text hr HIST_KEY_PROP == key))) t = some q →
      q < st0.nextId := by
    intro t q hq
    rcases build_map_find_mem _ [] t q hq with ⟨hr, hmem, _, hid⟩ | h
    · exact hid ▸ hwf.2 hr (List.mem_of_mem_filter hmem)
    · simp [dictFind] at h
  have hpres : ∀ t q,
      dictFind (build_existing_map (st0.store.filter
        (fun hr => get_rich_text hr HIST_KEY_PROP == key))) t = some q →
      q ∈ st0.store.map Page.id := by
    intro t q hq
    rcases build_map_find_mem _ [] t q hq with ⟨hr, hmem, _, hid⟩ | h
    · exact hid ▸ List.mem_map_of_mem _ (List.mem_of_mem_filter hmem)
    · simp [dictFind] at h
  have hrows : ∀ row ∈ trades,
      hasRow (run_reconcile trades bt1 key st0).2.2.store key
        (pyNorm (get_title row TRADING_TICKER_PROP)) := by
    intro row hrow
    have := reconcile_writes_row trades
      (build_existing_map (st0.store.filter
        (fun hr => get_rich_text hr HIST_KEY_PROP == key)))
      bt1 key st0 hinj hbound hpres row hrow (hvalid row hrow)
    exact this
  apply reconcile_all_update
  intro row hrow
  refine ⟨hvalid row hrow, ?_⟩
  obtain ⟨hr, hmem, hm⟩ := hrows row hrow
  apply build_map_isSome_of_mem _ []
  · exact (hvalid row hrow).1
  · refine ⟨hr, List.mem_filter.mpr ⟨hmem, ?_⟩, hm.2⟩
    simpa using hm.1

/-- A concrete open-trade page used by the witnesses. -/
def wTrade : Page :=
  { id := 0,
    properties := [("Ticker", NProp.title [pstr "AAPL"]),
                   ("Close", NProp.number (some 1))] }

/-- A concrete bucket timestamp used by the witnesses. -/
def wBt : DT := ⟨2025, 3, 7, 9, 40, 0, 0⟩

/-- A concrete bucket key used by the witnesses. -/
def wKey : PyStr := pstr "2025-03-07 09:40"

theorem reconcile_rerun_idempotent_witness :
    wfState ⟨[], 0⟩ ∧ (∀ row ∈ [wTrade], validTrade row) ∧
    (run_reconcile [wTrade] wBt wKey
        (run_reconcile [wTrade] wBt wKey ⟨[], 0⟩).2.2).1 = ⟨0, 1, 0⟩ :=
  ⟨by decide, by decide,
    reconcile_rerun_idempotent [wTrade] wBt wBt wKey ⟨[], 0⟩ (by decide) (by decide)⟩

/-- Claim C10: `floor_to_bucket` is total for every bucket size from 1
to 60 — the computed minute `(dt.minute // minutes) * minutes` always
stays in `[0, 60)` for a real datetime, so `datetime.replace` never
fails — while `minutes = 0` raises a `ZeroDivisionError`; the unstated
validity precondition on the bucket size is `minutes ≥ 1`. -/
theorem floor_to_bucket_total_and_zero_div :
    (∀ (dt : DT) (minutes : Nat), 1 ≤ minutes → minutes ≤ 60 → dt.minute < 60 →
      floor_to_bucket dt minutes =
        .ok { dt with minute := dt.minute / minutes * minutes,
                      second := 0, microsecond := 0 }) ∧
    (∀ dt : DT, floor_to_bucket dt 0 = .error .zeroDivisionError) := by
  constructor
  · intro dt minutes h1 _ hm
    have hne : minutes ≠ 0 := by omega
    have hlt : dt.minute / minutes * minutes < 60 :=
      Nat.lt_of_le_of_lt (Nat.div_mul_le_self _ _) hm
    simp only [floor_to_bucket, hne, if_false, hlt, if_true]
  · intro dt
    rfl

theorem floor_to_bucket_total_and_zero_div_witness :
    (1 ≤ 10 ∧ 10 ≤ 60 ∧ (⟨2025, 3, 7, 9, 47, 12, 0⟩ : DT).minute < 60) ∧
    floor_to_bucket ⟨2025, 3, 7, 9, 47, 12, 0⟩ 10 = .ok ⟨2025, 3, 7, 9, 40, 0, 0⟩ :=
  ⟨⟨by decide, by decide, by decide⟩,
    floor_to_bucket_total_and_zero_div.1 ⟨2025, 3, 7, 9, 47, 12, 0⟩ 10
      (by decide) (by decide) (by decide)⟩

/-- Claim C5: for every wall-clock datetime and positive bucket size,
the bucketer truncates the time to the bucket start with seconds and
sub-seconds zeroed, and `main` derives the bucket key from it in the
fixed format "YYYY-MM-DD HH:MM"; in particular with bucket size 10 and
wall clock 09:47:12 the bucket timestamp is 09:40:00 and the bucket
key ends in "09:40". -/
theorem bucketer_truncates_and_formats_key :
    (∀ (dt : DT) (minutes : Nat), 1 ≤ minutes → dt.minute < 60 →
      floor_to_bucket dt minutes =
        .ok { dt with minute := dt.minute / minutes * minutes,
                      second := 0, microsecond := 0 } ∧
      strftimeKey { dt with minute := dt.minute / minutes * minutes,
                            second := 0, microsecond := 0 } =
        pad4 dt.year ++ pstr "-" ++ pad2 dt.month ++ pstr "-" ++ pad2 dt.day ++
          pstr " " ++ pad2 dt.hour ++ pstr ":" ++ pad2 (dt.minute / minutes * minutes)) ∧
    floor_to_bucket ⟨2025, 3, 7, 9, 47, 12, 123456⟩ 10 = .ok ⟨2025, 3, 7, 9, 40, 0, 0⟩ ∧
    strftimeKey ⟨2025, 3, 7, 9, 40, 0, 0⟩ = pstr "2025-03-07 09:40" ∧
    (pstr "09:40").isSuffixOf (strftimeKey ⟨2025, 3, 7, 9, 40, 0, 0⟩) = true := by
  refine ⟨?_, by decide, by decide, by decide⟩
  intro dt minutes h1 hm
  have hne : minutes ≠ 0 := by omega
  have hlt : dt.minute / minutes * minutes < 60 :=
    Nat.lt_of_le_of_lt (Nat.div_mul_le_self _ _) hm
  constructor
  · simp only [floor_to_bucket, hne, if_false, hlt, if_true]
  · rfl

theorem bucketer_truncates_and_formats_key_witness :
    (1 ≤ 10 ∧ (⟨2025, 3, 7, 9, 47, 12, 123456⟩ : DT).minute < 60) ∧
    floor_to_bucket ⟨2025, 3, 7, 9, 47, 12, 123456⟩ 10 = .ok ⟨2025, 3, 7, 9, 40, 0, 0⟩ :=
  ⟨⟨by decide, by decide⟩,
    ((bucketer_truncates_and_formats_key.1 ⟨2025, 3, 7, 9, 47, 12, 123456⟩ 10
      (by decide) (by decide)).1 : _)⟩

/-- Claim C8: the bucketer is idempotent within one bucket window: any
two wall-clock times falling in the same window (same date and hour,
same bucket quotient of the minute) yield identical bucket timestamps
and identical bucket keys, and flooring an already-floored time
returns it unchanged. -/
theorem bucketer_idempotent_within_window :
    (∀ (minutes : Nat) (dt1 dt2 : DT), 1 ≤ minutes →
      dt1.year = dt2.year → dt1.month = dt2.month → dt1.day = dt2.day →
      dt1.hour = dt2.hour → dt1.minute / minutes = dt2.minute / minutes →
      floor_to_bucket dt1 minutes = floor_to_bucket dt2 minutes ∧
      (floor_to_bucket dt1 minutes).map strftimeKey =
        (floor_to_bucket dt2 minutes).map strftimeKey) ∧
    (∀ (minutes : Nat) (dt bt : DT),
      floor_to_bucket dt minutes = .ok bt → floor_to_bucket bt minutes = .ok bt) := by
  constructor
  · intro minutes dt1 dt2 hpos hy hmo hd hh hq
    have hne : minutes ≠ 0 := by omega
    have heq : floor_to_bucket dt1 minutes = floor_to_bucket dt2 minutes := by
      obtain ⟨y1, mo1, d1, h1, mi1, s1, u1⟩ := dt1
      obtain ⟨y2, mo2, d2, h2, mi2, s2, u2⟩ := dt2
      simp only at hy hmo hd hh hq
      subst hy hmo hd hh
      have hm : mi1 / minutes * minutes = mi2 / minutes * minutes := by rw [hq]
      simp only [floor_to_bucket, hne, if_false, hm]
    exact ⟨heq, by rw [heq]⟩
  · intro minutes dt bt h
    by_cases hne : minutes = 0
    · subst hne
      simp [floor_to_bucket] at h
    · simp only [floor_to_bucket, hne, if_false] at h ⊢
      by_cases hlt : dt.minute / minutes * minutes < 60
      · rw [if_pos hlt] at h
        cases h
        have hdvd : dt.minute / minutes * minutes / minutes = dt.minute / minutes :=
          Nat.mul_div_cancel _ (by omega)
        simp only [hdvd, hlt, if_true]
      · rw [if_neg hlt] at h
        cases h

theorem bucketer_idempotent_within_window_witness :
    (1 ≤ 10 ∧ (⟨2025, 3, 7, 9, 41, 3, 0⟩ : DT).minute / 10 =
        (⟨2025, 3, 7, 9, 47, 12, 0⟩ : DT).minute / 10) ∧
    floor_to_bucket ⟨2025, 3, 7, 9, 41, 3, 0⟩ 10 =
      floor_to_bucket ⟨2025, 3, 7, 9, 47, 12, 0⟩ 10 :=
  ⟨⟨by decide, by decide⟩,
    (bucketer_idempotent_within_window.1 10 ⟨2025, 3, 7, 9, 41, 3, 0⟩
      ⟨2025, 3, 7, 9, 47, 12, 0⟩ (by decide) rfl rfl rfl rfl (by decide)).1⟩

/-- Claim C4: `db_query_all` follows continuation pages until one
reports `has_more = false` and returns the concatenation of all pages'
results, in page order, as one list; in particular a 3-page sequence
(`has_more` = true, true, false) is fully drained. -/
theorem db_query_all_drains_pages :
    ∀ {α : Type} (front : List (QueryResp α)) (lastPage : QueryResp α),
      (∀ pg ∈ front, pg.hasMore = true) → lastPage.hasMore = false →
      db_query_all (front ++ [lastPage]) =
        ((front ++ [lastPage]).map QueryResp.results).flatten := by
  intro α front lastPage hfront hlast
  induction front with
  | nil =>
    simp [db_query_all, hlast]
  | cons pg pgs ih =>
    have hp : pg.hasMore = true := hfront pg (List.mem_cons_self _ _)
    have hps : ∀ q ∈ pgs, q.hasMore = true :=
      fun q hq => hfront q (List.mem_cons_of_mem _ hq)
    simp [db_query_all, hp, ih hps]

theorem db_query_all_drains_pages_witness :
    ((∀ pg ∈ [(⟨[1, 2], true, some 7⟩ : QueryResp Nat), ⟨[3], true, some 8⟩],
        pg.hasMore = true) ∧
      (⟨[4, 5], false, none⟩ : QueryResp Nat).hasMore = false) ∧
    db_query_all [(⟨[1, 2], true, some 7⟩ : QueryResp Nat), ⟨[3], true, some 8⟩,
        ⟨[4, 5], false, none⟩] =
      (([(⟨[1, 2], true, some 7⟩ : QueryResp Nat), ⟨[3], true, some 8⟩,
        ⟨[4, 5], false, none⟩]).map QueryResp.results).flatten :=
  ⟨⟨by decide, by decide⟩,
    db_query_all_drains_pages [⟨[1, 2], true, some 7⟩, ⟨[3], true, some 8⟩]
      ⟨[4, 5], false, none⟩ (by decide) (by decide)⟩

/-- Claim C3: when the primary status-type filter of
`query_open_trades` raises, the select-type fallback is attempted
exactly once (the attempt sequence is exactly [status, select] and the
fallback's outcome is final, with no further retry); and if the
fallback also raises, `main` aborts with that error having issued zero
create or update calls. -/
theorem query_open_trades_fallback_once
    (q : StatusFilter → Except PyError (List Page)) (e1 : PyError)
    (h1 : q .statusType = .error e1) :
    (query_open_trades q).2 = [.statusType, .selectType] ∧
    (query_open_trades q).1 = q .selectType ∧
    (∀ (e2 : PyError) (nowLocal : DT) (st : RunState),
      q .selectType = .error e2 → nowLocal.minute < 60 →
      main_fn q nowLocal st = (.error e2, [], st)) := by
  refine ⟨by simp [query_open_trades, h1], by simp [query_open_trades, h1], ?_⟩
  intro e2 nowLocal st h2 hm
  have hlt : nowLocal.minute / 10 * 10 < 60 :=
    Nat.lt_of_le_of_lt (Nat.div_mul_le_self _ _) hm
  simp only [main_fn, BUCKET_MINUTES, floor_to_bucket,
    show (10 : Nat) ≠ 0 from by omega, if_false, hlt, if_true,
    query_open_trades, h1, h2]

theorem query_open_trades_fallback_once_witness :
    ((fun _ : StatusFilter =>
        (Except.error (PyError.runtimeError 400) : Except PyError (List Page)))
      StatusFilter.statusType = .error (.runtimeError 400)) ∧
    (query_open_trades (fun _ => .error (.runtimeError 400))).2 =
      [.statusType, .selectType] ∧
    main_fn (fun _ => .error (.runtimeError 400)) ⟨2025, 3, 7, 9, 47, 12, 0⟩ ⟨[], 0⟩ =
      (.error (.runtimeError 400), [], (⟨[], 0⟩ : RunState)) :=
  ⟨rfl,
    (query_open_trades_fallback_once (fun _ => .error (.runtimeError 400))
      (.runtimeError 400) rfl).1,
    (query_open_trades_fallback_once (fun _ => .error (.runtimeError 400))
      (.runtimeError 400) rfl).2.2 (.runtimeError 400) ⟨2025, 3, 7, 9, 47, 12, 0⟩
      ⟨[], 0⟩ rfl (by decide)⟩

/-- Claim C6: a trade row whose extracted normalized ticker is empty
or whose price is absent is counted in `skipped`, produces zero write
calls for that record, leaves the store untouched by that record, and
the loop continues with the remaining trades (no abort). -/
theorem invalid_trade_skipped
    (row : Page) (rest : List Page) (em : List (PyStr × Nat)) (bt : DT)
    (key : PyStr) (st : RunState)
    (h : pyNorm (get_title row TRADING_TICKER_PROP) = [] ∨
      get_number row TRADING_CLOSE_PROP = none) :
    (reconcile em bt key (row :: rest) st).1.skipped =
      (reconcile em bt key rest st).1.skipped + 1 ∧
    (reconcile em bt key (row :: rest) st).1.created =
      (reconcile em bt key rest st).1.created ∧
    (reconcile em bt key (row :: rest) st).1.updated =
      (reconcile em bt key rest st).1.updated ∧
    (reconcile em bt key (row :: rest) st).2.1 =
      (reconcile em bt key rest st).2.1 ∧
    (reconcile em bt key (row :: rest) st).2.2 =
      (reconcile em bt key rest st).2.2 := by
  rw [reconcile_cons_skip em bt key row rest st h]
  exact ⟨rfl, rfl, rfl, rfl, rfl⟩

/-- A concrete malformed trade page (empty ticker) for the witnesses. -/
def wBadTrade : Page :=
  { id := 5,
    properties := [("Ticker", NProp.title [pstr "  "]),
                   ("Close", NProp.number (some 3))] }

theorem invalid_trade_skipped_witness :
    (pyNorm (get_title wBadTrade TRADING_TICKER_PROP) = [] ∨
      get_number wBadTrade TRADING_CLOSE_PROP = none) ∧
    (reconcile [] wBt wKey [wBadTrade, wTrade] ⟨[], 0⟩).1.skipped =
      (reconcile [] wBt wKey [wTrade] ⟨[], 0⟩).1.skipped + 1 :=
  ⟨.inl (by decide),
    (invalid_trade_skipped wBadTrade [wTrade] [] wBt wKey ⟨[], 0⟩
      (.inl (by decide))).1⟩

/-- Claim C9: when the reconcile loop completes, created + updated +
skipped equals the number of input trades, and each non-skipped trade
issued exactly one write call (the write log is exactly created +
updated long, one create or one update per processed trade). -/
theorem reconcile_counts_partition :
    ∀ (trades : List Page) (em : List (PyStr × Nat)) (bt : DT) (key : PyStr)
      (st : RunState),
      (reconcile em bt key trades st).1.created +
          (reconcile em bt key trades st).1.updated +
          (reconcile em bt key trades st).1.skipped = trades.length ∧
      (reconcile em bt key trades st).2.1.length =
        (reconcile em bt key trades st).1.created +
          (reconcile em bt key trades st).1.updated := by
  intro trades
  induction trades with
  | nil =>
    intro em bt key st
    rw [reconcile_nil]
    exact ⟨rfl, rfl⟩
  | cons row rest ih =>
    intro em bt key st
    by_cases hv1 : pyNorm (get_title row TRADING_TICKER_PROP) = []
    · rw [reconcile_cons_skip em bt key row rest st (.inl hv1)]
      obtain ⟨h1, h2⟩ := ih em bt key st
      constructor
      · simp only [List.length_cons]
        omega
      · simpa using h2
    · cases hp : get_number row TRADING_CLOSE_PROP with
      | none =>
        rw [reconcile_cons_skip em bt key row rest st (.inr hp)]
        obtain ⟨h1, h2⟩ := ih em bt key st
        constructor
        · simp only [List.length_cons]
          omega
        · simpa using h2
      | some p =>
        cases hf : dictFind em (pyNorm (get_title row TRADING_TICKER_PROP)) with
        | some pid =>
          rw [reconcile_cons_update em bt key row rest st pid p hv1 hp hf]
          obtain ⟨h1, h2⟩ := ih em bt key
            (postUpdate st pid (mkProps (pyNorm (get_title row TRADING_TICKER_PROP))
              row.id bt key p))
          constructor
          · simp only [List.length_cons]
            omega
          · simp only [List.length_cons]
            omega
        | none =>
          rw [reconcile_cons_create em bt key row rest st p hv1 hp hf]
          obtain ⟨h1, h2⟩ := ih em bt key
            (postCreate st (mkProps (pyNorm (get_title row TRADING_TICKER_PROP))
              row.id bt key p))
          constructor
          · simp only [List.length_cons]
            omega
          · simp only [List.length_cons]
            omega

/-- Claim C7: ticker matching between a trade and the pre-read history
map is whitespace-trimmed and case-insensitive: a history row of this
bucket whose normalized title equals the trade's normalized ticker
(e.g. " aapl " vs "AAPL") makes the lookup resolve to an existing
row's id, so the reconciler issues an update for that row, not a
create. -/
theorem ticker_match_trimmed_upper
    (st : RunState) (hr row : Page) (rest : List Page) (bt : DT) (key : PyStr)
    (p : Rat)
    (hmem : hr ∈ st.store)
    (hkey : get_rich_text hr HIST_KEY_PROP = key)
    (hsame : pyNorm (get_title hr HIST_TICKER_PROP) =
      pyNorm (get_title row TRADING_TICKER_PROP))
    (hne : pyNorm (get_title row TRADING_TICKER_PROP) ≠ [])
    (hp : get_number row TRADING_CLOSE_PROP = some p) :
    ∃ pid,
      dictFind (build_existing_map (st.store.filter
          (fun h2 => get_rich_text h2 HIST_KEY_PROP == key)))
        (pyNorm (get_title row TRADING_TICKER_PROP)) = some pid ∧
      pid ∈ st.store.map Page.id ∧
      (run_reconcile (row :: rest) bt key st).1.updated =
        (reconcile (build_existing_map (st.store.filter
            (fun h2 => get_rich_text h2 HIST_KEY_PROP == key))) bt key rest
          (postUpdate st pid (mkProps (pyNorm (get_title row TRADING_TICKER_PROP))
            row.id bt key p))).1.updated + 1 ∧
      (run_reconcile (row :: rest) bt key st).1.created =
        (reconcile (build_existing_map (st.store.filter
            (fun h2 => get_rich_text h2 HIST_KEY_PROP == key))) bt key rest
          (postUpdate st pid (mkProps (pyNorm (get_title row TRADING_TICKER_PROP))
            row.id bt key p))).1.created ∧
      (run_reconcile (row :: rest) bt key st).2.1 =
        WriteCall.update pid (mkProps (pyNorm (get_title row TRADING_TICKER_PROP))
            row.id bt key p) ::
          (reconcile (build_existing_map (st.store.filter
              (fun h2 => get_rich_text h2 HIST_KEY_PROP == key))) bt key rest
            (postUpdate st pid (mkProps (pyNorm (get_title row TRADING_TICKER_PROP))
              row.id bt key p))).2.1 := by
  have hsome := build_map_isSome_of_mem
    (st.store.filter (fun h2 => get_rich_text h2 HIST_KEY_PROP == key)) []
    (pyNorm (get_title row TRADING_TICKER_PROP)) hne
    ⟨hr, List.mem_filter.mpr ⟨hmem, by simpa using hkey⟩, hsame⟩
  obtain ⟨pid, hpid⟩ := Option.isSome_iff_exists.mp hsome
  refine ⟨pid, hpid, ?_, ?_, ?_, ?_⟩
  · rcases build_map_find_mem _ [] _ _ hpid with ⟨w, hw, _, hwid⟩ | h
    · exact hwid ▸ List.mem_map_of_mem _ (List.mem_of_mem_filter hw)
    · simp [dictFind] at h
  · rw [show run_reconcile (row :: rest) bt key st =
        reconcile (build_existing_map (st.store.filter
          (fun h2 => get_rich_text h2 HIST_KEY_PROP == key))) bt key (row :: rest) st
        from rfl,
      reconcile_cons_update (build_existing_map (st.store.filter
          (fun h2 => get_rich_text h2 HIST_KEY_PROP == key)))
        bt key row rest st pid p hne hp hpid]
  · rw [show run_reconcile (row :: rest) bt key st =
        reconcile (build_existing_map (st.store.filter
          (fun h2 => get_rich_text h2 HIST_KEY_PROP == key))) bt key (row :: rest) st
        from rfl,
      reconcile_cons_update (build_existing_map (st.store.filter
          (fun h2 => get_rich_text h2 HIST_KEY_PROP == key)))
        bt key row rest st pid p hne hp hpid]
  · rw [show run_reconcile (row :: rest) bt key st =
        reconcile (build_existing_map (st.store.filter
          (fun h2 => get_rich_text h2 HIST_KEY_PROP == key))) bt key (row :: rest) st
        from rfl,
      reconcile_cons_update (build_existing_map (st.store.filter
          (fun h2 => get_rich_text h2 HIST_KEY_PROP == key)))
        bt key row rest st pid p hne hp hpid]

/-- A concrete existing history row (title " aapl ") for the
witnesses. -/
def wHist : Page :=
  { id := 9,
    properties := [("Ticker", NProp.title [pstr " aapl "]),
                   ("HourKey", NProp.richText [wKey])] }

theorem ticker_match_trimmed_upper_witness :
    (wHist ∈ ({ store := [wHist], nextId := 10 } : RunState).store ∧
      get_rich_text wHist HIST_KEY_PROP = wKey ∧
      pyNorm (get_title wHist HIST_TICKER_PROP) =
        pyNorm (get_title wTrade TRADING_TICKER_PROP) ∧
      pyNorm (get_title wTrade TRADING_TICKER_PROP) ≠ [] ∧
      get_number wTrade TRADING_CLOSE_PROP = some 1) ∧
    ∃ pid,
      dictFind (build_existing_map ((({ store := [wHist], nextId := 10 } :
            RunState)).store.filter
          (fun h2 => get_rich_text h2 HIST_KEY_PROP == wKey)))
        (pyNorm (get_title wTrade TRADING_TICKER_PROP)) = some pid ∧
      pid ∈ (({ store := [wHist], nextId := 10 } : RunState)).store.map Page.id :=
  ⟨⟨by decide, by decide, by decide, by decide, by decide⟩,
    match ticker_match_trimmed_upper { store := [wHist], nextId := 10 } wHist wTrade
      [] wBt wKey 1 (by decide) (by decide) (by decide) (by decide) (by decide) with
    | ⟨pid, h1, h2, _⟩ => ⟨pid, h1, h2⟩⟩

/-- Claim C2 counterexample: with an empty history store and two valid
trades carrying the same normalized ticker "AAPL", a single run issues
two creates and leaves two history rows for the one (ticker,
bucketKey) pair — the reconciler does not prevent duplicates arising
from duplicate tickers within one trade list, because `existing_map`
is never extended during the loop. -/
theorem reconcile_intra_run_duplicate_counterexample :
    (∀ row ∈ [wTrade, { wTrade with id := 1 }], validTrade row) ∧
    (run_reconcile [wTrade, { wTrade with id := 1 }] wBt wKey ⟨[], 0⟩).1.created = 2 ∧
    countTicker (run_reconcile [wTrade, { wTrade with id := 1 }] wBt wKey
        ⟨[], 0⟩).2.2.store wKey (pstr "AAPL") = 2 := by
  refine ⟨by decide, by decide, by decide⟩

/-! ## Lemmas for the per-bucket uniqueness invariant -/

theorem rowMatchesB_iff (hr : Page) (key t : PyStr) :
    rowMatchesB hr key t = true ↔ rowMatches hr key t := by
  simp [rowMatchesB, rowMatches]

theorem length_le_one_of_nodup_const {l : List Nat} (hnd : l.Nodup) (c : Nat)
    (h : ∀ x ∈ l, x = c) : l.length ≤ 1 := by
  match l with
  | [] => simp
  | [a] => simp
  | a :: b :: rest =>
    exfalso
    have ha : a = c := h a (List.mem_cons_self _ _)
    have hb : b = c := h b (List.mem_cons_of_mem _ (List.mem_cons_self _ _))
    have : a ∉ b :: rest := (List.nodup_cons.mp hnd).1
    exact this (by rw [ha, hb]; exact List.mem_cons_self _ _)

theorem mem_of_length_le_one {l : List Page} (hlen : l.length ≤ 1)
    {a b : Page} (ha : a ∈ l) (hb : b ∈ l) : a = b := by
  match l with
  | [] => cases ha
  | [x] =>
    rw [List.mem_singleton.mp ha, List.mem_singleton.mp hb]
  | x :: y :: rest => simp at hlen

theorem countTicker_le_one_of_all_id (store : List Page) (key t : PyStr)
    (pid : Nat) (hnd : (store.map Page.id).Nodup)
    (h : ∀ hr ∈ store, rowMatchesB hr key t = true → hr.id = pid) :
    countTicker store key t ≤ 1 := by
  unfold countTicker
  have hsub : ((store.filter (fun hr => rowMatchesB hr key t)).map Page.id).Nodup :=
    List.Nodup.sublist (List.Sublist.map Page.id (List.filter_sublist _)) hnd
  have hall : ∀ x ∈ (store.filter (fun hr => rowMatchesB hr key t)).map Page.id,
      x = pid := by
    intro x hx
    obtain ⟨hr, hhr, rfl⟩ := List.mem_map.mp hx
    have hm := List.mem_filter.mp hhr
    exact h hr hm.1 hm.2
  have := length_le_one_of_nodup_const hsub pid hall
  simpa using this

theorem countTicker_eq_zero_iff (store : List Page) (key t : PyStr) :
    countTicker store key t = 0 ↔
      ∀ hr ∈ store, rowMatchesB hr key t = false := by
  unfold countTicker
  rw [List.length_eq_zero, List.filter_eq_nil_iff]
  constructor
  · intro h hr hm
    have := h hr hm
    simpa using this
  · intro h hr hm
    simp [h hr hm]

theorem length_filter_le_of_imp :
    ∀ (l : List Page) (p q : Page → Bool),
      (∀ a ∈ l, p a = true → q a = true) →
      (l.filter p).length ≤ (l.filter q).length := by
  intro l p q h
  induction l with
  | nil => simp
  | cons a rest ih =>
    have ih' := ih (fun x hx => h x (List.mem_cons_of_mem _ hx))
    by_cases hp : p a = true
    · have hq : q a = true := h a (List.mem_cons_self _ _) hp
      simp only [List.filter_cons, hp, if_true, hq, List.length_cons]
      exact Nat.succ_le_succ ih'
    · have hp' : p a = false := by simpa using hp
      simp only [List.filter_cons, hp', Bool.false_eq_true, if_false]
      cases hq : q a with
      | true =>
        simp only [hq, if_true, List.length_cons]
        exact Nat.le_succ_of_le ih'
      | false =>
        simp only [Bool.false_eq_true, if_false]
        exact ih'

theorem countTicker_map_eq (store : List Page) (g : Page → Page) (key t : PyStr) :
    countTicker (store.map g) key t =
      (store.filter (fun q => rowMatchesB (g q) key t)).length := by
  unfold countTicker
  rw [List.filter_map, List.length_map]
  rfl

theorem rowMatchesB_update_ne (q : Page) (t0 : PyStr) (sid : Nat) (bt : DT)
    (key : PyStr) (p : Rat) (key' t : PyStr)
    (hnorm : pyNorm t0 = t0) (hne : t ≠ t0) :
    rowMatchesB { q with properties := applyProps q.properties (mkProps t0 sid bt key p) }
      key' t = false := by
  have h1 := get_title_update q t0 sid bt key p
  simp only [rowMatchesB, h1, hnorm, Bool.and_eq_false_iff]
  right
  simpa using fun he => hne he.symm

theorem rowMatchesB_create_ne (i : Nat) (t0 : PyStr) (sid : Nat) (bt : DT)
    (key : PyStr) (p : Rat) (key' t : PyStr)
    (hnorm : pyNorm t0 = t0) (hne : t ≠ t0) :
    rowMatchesB { id := i, properties := mkProps t0 sid bt key p } key' t = false := by
  have h1 := get_title_create i t0 sid bt key p
  simp only [rowMatchesB, h1, hnorm, Bool.and_eq_false_iff]
  right
  simpa using fun he => hne he.symm

theorem wfState_postUpdate (st : RunState) (pid : Nat)
    (props : List (String × NProp)) (hwf : wfState st) :
    wfState (postUpdate st pid props) := by
  constructor
  · rw [show (postUpdate st pid props).store = updatePageStore st.store pid props
      from rfl, updatePageStore_map_id]
    exact hwf.1
  · intro q hq
    obtain ⟨q0, hq0, hg⟩ := List.mem_map.mp hq
    have hid : q.id = q0.id := by
      rw [← hg]
      split <;> rfl
    rw [hid]
    exact hwf.2 q0 hq0

theorem wfState_postCreate (st : RunState) (props : List (String × NProp))
    (hwf : wfState st) : wfState (postCreate st props) := by
  constructor
  · rw [show (postCreate st props).store = createPageStore st.store st.nextId props
      from rfl, createPageStore_map_id]
    rw [List.nodup_append]
    refine ⟨hwf.1, List.nodup_singleton _, ?_⟩
    intro x hx hx1
    have hlt : x < st.nextId := by
      obtain ⟨q, hq, rfl⟩ := List.mem_map.mp hx
      exact hwf.2 q hq
    rw [List.mem_singleton.mp hx1] at hlt
    exact Nat.lt_irrefl _ hlt
  · intro q hq
    rcases List.mem_append.mp hq with hq' | hq'
    · exact Nat.lt_succ_of_lt (hwf.2 q hq')
    · rw [List.mem_singleton.mp hq']
      exact Nat.lt_succ_self _

theorem countTicker_updatePageStore_le (store : List Page) (pid : Nat)
    (props : List (String × NProp)) (key t : PyStr)
    (hpatched : ∀ q : Page,
      rowMatchesB { q with properties := applyProps q.properties props } key t = false) :
    countTicker (updatePageStore store pid props) key t ≤
      countTicker store key t := by
  have heq := countTicker_map_eq store
    (fun q => if q.id == pid then { q with properties := applyProps q.properties props } else q)
    key t
  rw [show updatePageStore store pid props =
      store.map (fun q =>
        if q.id == pid then { q with properties := applyProps q.properties props } else q)
    from rfl, heq]
  unfold countTicker
  apply length_filter_le_of_imp
  intro q _ hq
  by_cases hqid : (q.id == pid) = true
  · rw [if_pos hqid, hpatched q] at hq
    cases hq
  · rw [if_neg hqid] at hq
    exact hq

theorem forall_mem_updatePageStore {store : List Page} {pid : Nat}
    {props : List (String × NProp)} {P : Page → Prop}
    (hpatch : ∀ q ∈ store, (q.id == pid) = true →
      P { q with properties := applyProps q.properties props })
    (hkeep : ∀ q ∈ store, (q.id == pid) = false → P q) :
    ∀ hr ∈ updatePageStore store pid props, P hr := by
  intro hr hmem
  obtain ⟨q, hq, hg⟩ := List.mem_map.mp hmem
  by_cases hqid : (q.id == pid) = true
  · rw [← hg, if_pos hqid]
    exact hpatch q hq hqid
  · rw [if_neg hqid] at hg
    rw [← hg]
    exact hkeep q hq (by simpa using hqid)

theorem postCreate_store (st : RunState) (props : List (String × NProp)) :
    (postCreate st props).store =
      st.store ++ [{ id := st.nextId, properties := props }] := rfl

theorem reconcile_keeps_unique :
    ∀ (trades : List Page) (em : List (PyStr × Nat)) (bt : DT) (key : PyStr)
      (st : RunState),
      wfState st →
      (∀ t, t ≠ [] → countTicker st.store key t ≤ 1) →
      (∀ r ∈ trades, validTrade r →
        (∀ pid, dictFind em (pyNorm (get_title r TRADING_TICKER_PROP)) = some pid →
          ∀ hr ∈ st.store,
            rowMatchesB hr key (pyNorm (get_title r TRADING_TICKER_PROP)) = true →
            hr.id = pid) ∧
        (dictFind em (pyNorm (get_title r TRADING_TICKER_PROP)) = none →
          countTicker st.store key (pyNorm (get_title r TRADING_TICKER_PROP)) = 0)) →
      trades.Pairwise (fun r1 r2 =>
        pyNorm (get_title r1 TRADING_TICKER_PROP) ≠ [] →
        pyNorm (get_title r1 TRADING_TICKER_PROP) ≠
          pyNorm (get_title r2 TRADING_TICKER_PROP)) →
      ∀ t, t ≠ [] → countTicker (reconcile em bt key trades st).2.2.store key t ≤ 1 := by
  intro trades
  induction trades with
  | nil =>
    intro em bt key st _ hinv _ _ t ht
    rw [reconcile_nil]
    exact hinv t ht
  | cons row0 rest ih =>
    intro em bt key st hwf hinv hinv3 hpw t ht
    have hpw_head := (List.pairwise_cons.mp hpw).1
    have hpw_tail := (List.pairwise_cons.mp hpw).2
    by_cases hv1 : pyNorm (get_title row0 TRADING_TICKER_PROP) = []
    · rw [reconcile_cons_skip em bt key row0 rest st (.inl hv1)]
      exact ih em bt key st hwf hinv
        (fun r hr hv => hinv3 r (List.mem_cons_of_mem _ hr) hv) hpw_tail t ht
    · cases hp : get_number row0 TRADING_CLOSE_PROP with
      | none =>
        rw [reconcile_cons_skip em bt key row0 rest st (.inr hp)]
        exact ih em bt key st hwf hinv
          (fun r hr hv => hinv3 r (List.mem_cons_of_mem _ hr) hv) hpw_tail t ht
      | some p =>
        have hval : validTrade row0 := ⟨hv1, by rw [hp]; exact fun h => by cases h⟩
        have hnorm0 : pyNorm (pyNorm (get_title row0 TRADING_TICKER_PROP)) =
            pyNorm (get_title row0 TRADING_TICKER_PROP) := pyNorm_idem _
        cases hf : dictFind em (pyNorm (get_title row0 TRADING_TICKER_PROP)) with
        | some pid0 =>
          rw [reconcile_cons_update em bt key row0 rest st pid0 p hv1 hp hf]
          apply ih em bt key
            (postUpdate st pid0 (mkProps (pyNorm (get_title row0 TRADING_TICKER_PROP))
              row0.id bt key p))
          · exact wfState_postUpdate st pid0 _ hwf
          · intro t' ht'
            by_cases htt : t' = pyNorm (get_title row0 TRADING_TICKER_PROP)
            · subst htt
              apply countTicker_le_one_of_all_id _ _ _ pid0
              · rw [show (postUpdate st pid0 (mkProps (pyNorm (get_title row0
                    TRADING_TICKER_PROP)) row0.id bt key p)).store =
                    updatePageStore st.store pid0 _ from rfl, updatePageStore_map_id]
                exact hwf.1
              · apply forall_mem_updatePageStore
                · intro q _ hqid _
                  simpa using hqid
                · intro q hq hqid hB
                  exact (hinv3 row0 (List.mem_cons_self _ _) hval).1 pid0 hf q hq hB
            · apply Nat.le_trans _ (hinv t' ht')
              apply countTicker_updatePageStore_le
              intro q
              exact rowMatchesB_update_ne q _ row0.id bt key p key t' hnorm0 htt
          · intro r hr hv
            have htt : pyNorm (get_title r TRADING_TICKER_PROP) ≠
                pyNorm (get_title row0 TRADING_TICKER_PROP) :=
              fun he => (hpw_head r hr hv1) he.symm
            constructor
            · intro pid hpid
              apply forall_mem_updatePageStore
              · intro q _ _ hB
                rw [rowMatchesB_update_ne q _ row0.id bt key p key _ hnorm0 htt] at hB
                cases hB
              · intro q hq _ hB
                exact (hinv3 r (List.mem_cons_of_mem _ hr) hv).1 pid hpid q hq hB
            · intro hpid
              rw [countTicker_eq_zero_iff]
              apply forall_mem_updatePageStore
              · intro q _ _
                exact rowMatchesB_update_ne q _ row0.id bt key p key _ hnorm0 htt
              · intro q hq _
                have h0 := (hinv3 r (List.mem_cons_of_mem _ hr) hv).2 hpid
                exact (countTicker_eq_zero_iff _ _ _).mp h0 q hq
          · exact hpw_tail
          · exact ht
        | none =>
          rw [reconcile_cons_create em bt key row0 rest st p hv1 hp hf]
          have hzero := (hinv3 row0 (List.mem_cons_self _ _) hval).2 hf
          apply ih em bt key
            (postCreate st (mkProps (pyNorm (get_title row0 TRADING_TICKER_PROP))
              row0.id bt key p))
          · exact wfState_postCreate st _ hwf
          · intro t' ht'
            have hsplit : countTicker (postCreate st
                (mkProps (pyNorm (get_title row0 TRADING_TICKER_PROP))
                  row0.id bt key p)).store key t' =
                countTicker st.store key t' +
                  (List.filter (fun hr => rowMatchesB hr key t')
                    [Page.mk st.nextId
                      (mkProps (pyNorm (get_title row0 TRADING_TICKER_PROP))
                        row0.id bt key p)]).length := by
              unfold countTicker
              rw [postCreate_store, List.filter_append, List.length_append]
            rw [hsplit]
            by_cases htt : t' = pyNorm (get_title row0 TRADING_TICKER_PROP)
            · subst htt
              rw [hzero]
              have hB : rowMatchesB (Page.mk st.nextId
                    (mkProps (pyNorm (get_title row0 TRADING_TICKER_PROP))
                      row0.id bt key p)) key
                  (pyNorm (get_title row0 TRADING_TICKER_PROP)) = true :=
                (rowMatchesB_iff _ _ _).mpr
                  (rowMatches_create st.nextId _ row0.id bt key p hnorm0)
              simp [hB]
            · have hB : rowMatchesB (Page.mk st.nextId
                    (mkProps (pyNorm (get_title row0 TRADING_TICKER_PROP))
                      row0.id bt key p)) key t' = false :=
                rowMatchesB_create_ne _ _ _ bt key p key t' hnorm0 htt
              simp only [List.filter_cons, hB, Bool.false_eq_true, if_false,
                List.filter_nil, List.length_nil, Nat.add_zero]
              exact hinv t' ht'
          · intro r hr hv
            have htt : pyNorm (get_title r TRADING_TICKER_PROP) ≠
                pyNorm (get_title row0 TRADING_TICKER_PROP) :=
              fun he => (hpw_head r hr hv1) he.symm
            have hBr : rowMatchesB (Page.mk st.nextId
                  (mkProps (pyNorm (get_title row0 TRADING_TICKER_PROP))
                    row0.id bt key p)) key
                (pyNorm (get_title r TRADING_TICKER_PROP)) = false :=
              rowMatchesB_create_ne _ _ _ bt key p key _ hnorm0 htt
            constructor
            · intro pid hpid hr' hmem hB
              rcases List.mem_append.mp hmem with hmem' | hmem'
              · exact (hinv3 r (List.mem_cons_of_mem _ hr) hv).1 pid hpid hr' hmem' hB
              · rw [List.mem_singleton.mp hmem', hBr] at hB
                cases hB
            · intro hpid
              rw [countTicker_eq_zero_iff]
              intro hr' hmem
              rcases List.mem_append.mp hmem with hmem' | hmem'
              · have h0 := (hinv3 r (List.mem_cons_of_mem _ hr) hv).2 hpid
                exact (countTicker_eq_zero_iff _ _ _).mp h0 hr' hmem'
              · rw [List.mem_singleton.mp hmem']
                exact hBr
          · exact hpw_tail
          · exact ht

/-- Claim C2 (amended): for a single run starting from a store where a
given bucket key has at most one history row per non-empty normalized
ticker, the pre-read-then-upsert reconciler preserves that invariant —
provided no two trades in the input list share the same non-empty
normalized ticker. (The unamended claim, which also covers duplicate
tickers within one trade list, is refuted by
`reconcile_intra_run_duplicate_counterexample`.) -/
theorem reconcile_unique_ticker_invariant
    (trades : List Page) (bt : DT) (key : PyStr) (st0 : RunState)
    (hwf : wfState st0)
    (hinv : ∀ t, t ≠ [] → countTicker st0.store key t ≤ 1)
    (hdist : trades.Pairwise (fun r1 r2 =>
      pyNorm (get_title r1 TRADING_TICKER_PROP) ≠ [] →
      pyNorm (get_title r1 TRADING_TICKER_PROP) ≠
        pyNorm (get_title r2 TRADING_TICKER_PROP))) :
    ∀ t, t ≠ [] →
      countTicker (run_reconcile trades bt key st0).2.2.store key t ≤ 1 := by
  apply reconcile_keeps_unique trades _ bt key st0 hwf hinv _ hdist
  intro r hr hv
  constructor
  · intro pid hpid hr' hmem hB
    rcases build_map_find_mem _ [] _ _ hpid with ⟨w, hwmem, hwt, hwid⟩ | hnone
    · have hwfilter := List.mem_filter.mp hwmem
      have hBw : rowMatchesB w key (pyNorm (get_title r TRADING_TICKER_PROP)) =
          true := by
        apply (rowMatchesB_iff _ _ _).mpr
        exact ⟨by simpa using hwfilter.2, hwt⟩
      have hlen : (st0.store.filter (fun x => rowMatchesB x key
          (pyNorm (get_title r TRADING_TICKER_PROP)))).length ≤ 1 :=
        hinv _ hv.1
      have heq : hr' = w := mem_of_length_le_one hlen
        (List.mem_filter.mpr ⟨hmem, hB⟩)
        (List.mem_filter.mpr ⟨hwfilter.1, hBw⟩)
      rw [heq, hwid]
    · simp [dictFind] at hnone
  · intro hpid
    rw [countTicker_eq_zero_iff]
    intro hr' hmem
    by_contra hB
    have hB' : rowMatchesB hr' key (pyNorm (get_title r TRADING_TICKER_PROP)) =
        true := by
      cases hx : rowMatchesB hr' key (pyNorm (get_title r TRADING_TICKER_PROP)) with
      | true => rfl
      | false => exact absurd hx hB
    have hm := (rowMatchesB_iff _ _ _).mp hB'
    have hsome := build_map_isSome_of_mem
      (st0.store.filter (fun h2 => get_rich_text h2 HIST_KEY_PROP == key)) []
      (pyNorm (get_title r TRADING_TICKER_PROP)) hv.1
      ⟨hr', List.mem_filter.mpr ⟨hmem, by simpa using hm.1⟩, hm.2⟩
    rw [show build_existing_map (st0.store.filter
        (fun h2 => get_rich_text h2 HIST_KEY_PROP == key)) =
        (st0.store.filter (fun h2 => get_rich_text h2 HIST_KEY_PROP == key)).foldl
          emStep [] from rfl] at hpid
    rw [hpid] at hsome
    simp at hsome

/-- A second concrete open-trade page with a distinct ticker, for the
witnesses. -/
def wTrade2 : Page :=
  { id := 2,
    properties := [("Ticker", NProp.title [pstr "msft"]),
                   ("Close", NProp.number (some 2))] }

theorem reconcile_unique_ticker_invariant_witness :
    (wfState ⟨[wHist], 10⟩ ∧
      (∀ t : PyStr, t ≠ [] → countTicker (⟨[wHist], 10⟩ : RunState).store wKey t ≤ 1) ∧
      List.Pairwise (fun r1 r2 =>
        pyNorm (get_title r1 TRADING_TICKER_PROP) ≠ [] →
        pyNorm (get_title r1 TRADING_TICKER_PROP) ≠
          pyNorm (get_title r2 TRADING_TICKER_PROP)) [wTrade, wTrade2] ∧
      pstr "AAPL" ≠ []) ∧
    countTicker (run_reconcile [wTrade, wTrade2] wBt wKey ⟨[wHist], 10⟩).2.2.store
      wKey (pstr "AAPL") ≤ 1 :=
  ⟨⟨by decide, fun t ht => by
      have : countTicker (⟨[wHist], 10⟩ : RunState).store wKey t ≤
          ([wHist] : List Page).length := by
        unfold countTicker
        exact List.length_filter_le _ _
      simpa using this,
    by decide, by decide⟩,
    reconcile_unique_ticker_invariant [wTrade, wTrade2] wBt wKey ⟨[wHist], 10⟩
      (by decide)
      (fun t ht => by
        have : countTicker (⟨[wHist], 10⟩ : RunState).store wKey t ≤
            ([wHist] : List Page).length := by
          unfold countTicker
          exact List.length_filter_le _ _
        simpa using this)
      (by decide) (pstr "AAPL") (by decide)⟩
